import Mathlib

/-!
Shallow embedding of the selective-consumption core of the
rabbitmq-signadot-demo repository (consumer/app.py and publisher/app.py).

Python strings are modelled through their code-point sequences
(`String.data : List Char`); each Python string primitive used by the code
(`str.strip`, `str.split(sep)`, `str.split(sep, 1)`, `in`, `",".join`) is
given an explicit executable definition on `List Char` so that theorems can
be proved by list induction and concrete cases checked by `decide`.
-/

namespace SignadotDemo

/-- Python whitespace characters relevant to `str.strip()`:
space, tab, newline, carriage return, vertical tab, form feed. -/
def pyIsSpace (c : Char) : Bool :=
  c == ' ' || c == '\t' || c == '\n' || c == '\r' ||
    c == Char.ofNat 11 || c == Char.ofNat 12

/-- Remove leading and trailing whitespace from a character list
(model of Python `str.strip()` on `String.data`). -/
def stripChars (l : List Char) : List Char :=
  ((l.dropWhile pyIsSpace).reverse.dropWhile pyIsSpace).reverse

/-- Python `s.strip()`. -/
def pyStrip (s : String) : String :=
  ⟨stripChars s.data⟩

/-- Python `c in s` for a single character. -/
def containsChar (l : List Char) (c : Char) : Bool :=
  decide (c ∈ l)

/-- Python `s.split(sep)` for a one-character separator `c`. -/
def pySplitOn (s : String) (c : Char) : List String :=
  (s.data.splitOn c).map String.mk

/-- Python `sep.join(parts)` for a one-character separator `c`. -/
def pyJoin (c : Char) (parts : List String) : String :=
  ⟨[c].intercalate (parts.map String.data)⟩

/-- Python `s.split(c, 1)` when `c` occurs in `s`: the characters before and
after the first occurrence of `c`.  (When `c` does not occur, the first
component is the whole list; the code only uses this function under an
`in` guard.) -/
def splitFirst (c : Char) : List Char → List Char × List Char
  | [] => ([], [])
  | a :: rest =>
    if a = c then ([], rest)
    else
      let p := splitFirst c rest
      (a :: p.1, p.2)

/-- Python truthiness of an `Optional[str]`: `None` and `""` are falsy. -/
def truthy : Option String → Bool
  | none => false
  | some s => s != ""

/-- `headers.get(k)` on an AMQP headers dict, modelled as an association
list (first binding wins, as in a dict where keys are unique).  Values are
the UTF-8 decoded strings: the code's `_normalize` turns `bytes` values
into `str` before any use, so the model works on decoded text directly. -/
def lookupHeader (hs : List (String × String)) (k : String) : Option String :=
  (hs.find? (fun p => p.1 == k)).map Prod.snd

/-- One iteration body of the baggage scan in `_extract_routing_key`:
`item = item.strip(); "=" in item and item.split("=", 1)[0].strip() ==
"sd-routing-key"`. -/
def itemMatches (item : String) : Bool :=
  let s := pyStrip item
  if containsChar s.data '=' then
    pyStrip ⟨(splitFirst '=' s.data).1⟩ == "sd-routing-key"
  else false

/-- The value the baggage scan would return for an item:
`item.split("=", 1)[1].strip()` after stripping the item. -/
def itemValue (item : String) : String :=
  pyStrip ⟨(splitFirst '=' (pyStrip item).data).2⟩

/-- The `for item in baggage.split(",")` loop of `_extract_routing_key`:
return the stripped value of the first item whose stripped key equals
`sd-routing-key`; `None` when the loop completes. -/
def findBaggageKey : List String → Option String
  | [] => none
  | item :: rest =>
    if itemMatches item then some (itemValue item) else findBaggageKey rest

/-- `SignadotConsumer._extract_routing_key(headers)`.
`none` models Python `None`; the `some hs` branch with `hs = []` models an
empty dict (both are falsy, `if not headers`). -/
def extractRoutingKey (headers : Option (List (String × String))) : Option String :=
  match headers with
  | none => none
  | some hs =>
    if hs = [] then none
    else
      let rk := lookupHeader hs "signadot-routing-key"
      if truthy rk then rk
      else
        let baggage := (lookupHeader hs "baggage").getD ""
        if baggage = "" then none
        else findBaggageKey (pySplitOn baggage ',')

/-- Consumer identity fixed at startup: `SIGNADOT_SANDBOX_ROUTING_KEY`
(absent or empty means baseline). -/
structure ConsumerConfig where
  sandboxRoutingKey : Option String

/-- `self.is_baseline = not bool(self.sandbox_routing_key)`. -/
def isBaseline (c : ConsumerConfig) : Bool :=
  !(truthy c.sandboxRoutingKey)

/-- `self._active_routes = set()` in `__init__`. -/
def initialActiveRoutes : Finset String := ∅

/-- `SignadotConsumer._should_process`, as a function of the configuration,
the current `_active_routes` snapshot and the message headers.  The read of
`_active_routes` under `_routes_lock` is a single membership test. -/
def shouldProcess (c : ConsumerConfig) (activeRoutes : Finset String)
    (headers : Option (List (String × String))) : Bool :=
  let msgKey := extractRoutingKey headers
  if !(isBaseline c) then
    msgKey == c.sandboxRoutingKey
  else if !(truthy msgKey) then
    true
  else
    !(decide (msgKey.getD "" ∈ activeRoutes))

/-- Failure modes of one poll cycle of `update_routes`: request timeout,
non-success HTTP status (`raise_for_status`), malformed response body
(`resp.json()` / shape errors), or any other exception. -/
inductive PollFailure where
  | timeout
  | httpStatus (code : Nat)
  | malformedBody
  | otherError (msg : String)
deriving DecidableEq

/-- Outcome of the network/parse part of one poll cycle.  On success the
control plane returned a list of rule objects; each rule is represented by
its `routingKey` field (`none` when the field is absent). -/
inductive PollResult where
  | failure (e : PollFailure)
  | success (rules : List (Option String))

/-- `{r.get("routingKey") for r in rules if r.get("routingKey")}`:
the set of truthy (present and non-empty) routing keys of the rules. -/
def activeFromRules (rules : List (Option String)) : Finset String :=
  (rules.filterMap (fun rk =>
    match rk with
    | some k => if k = "" then none else some k
    | none => none)).toFinset

/-- One cycle of `update_routes`: on success the entire set is replaced
(`self._active_routes = active` under the lock); on any failure the
exception handler only logs, so the previous set is left untouched. -/
def updateRoutesCycle (prev : Finset String) (res : PollResult) : Finset String :=
  match res with
  | .failure _ => prev
  | .success rules => activeFromRules rules

/-- Operations on the `_active_routes` store.  `replace` is the single
assignment performed by `update_routes` under `_routes_lock`; `snapshot` is
the membership read performed by `_should_process` under the same lock.
Because both run under the lock and the writer installs a freshly built set
in one assignment (never mutating in place), each operation is one atomic
step of this trace semantics. -/
inductive TableOp where
  | replace (s : Finset String)
  | snapshot

/-- Run a sequence of table operations from an initial set, returning the
final set and the list of sets observed by the `snapshot` operations. -/
def runTable : Finset String → List TableOp → Finset String × List (Finset String)
  | s, [] => (s, [])
  | _, TableOp.replace t :: ops => runTable t ops
  | s, TableOp.snapshot :: ops =>
    let r := runTable s ops
    (r.1, s :: r.2)

/-- Observable effects of `_on_message` for one delivery. -/
inductive Effect where
  | handle
  | logHandlerError (msg : String)
  | ack
deriving DecidableEq, BEq

/-- `SignadotConsumer._on_message` as an effect trace: inside the `try`
body, if the admission decision is true the handler runs and any exception
it raises is caught and logged; the `finally` block then issues the single
`basic_ack`.  `handler` is the outcome of the application handler
(`Except.error` models a raised exception). -/
def onMessageEffects (accepted : Bool) (handler : Except String Unit) : List Effect :=
  (if accepted then
    Effect.handle ::
      (match handler with
       | Except.ok _ => []
       | Except.error e => [Effect.logHandlerError e])
  else []) ++ [Effect.ack]

/-- The consume loop over a sequence of deliveries: each message is given
by its admission decision and its handler outcome; a handler error never
stops the loop, so every delivery yields a trace. -/
def consumeLoop (msgs : List (Bool × Except String Unit)) : List (List Effect) :=
  msgs.map fun m => onMessageEffects m.1 m.2

/-- Number of baggage items of `b` (split on commas) that the consumer's
scan recognises as `sd-routing-key` items. -/
def countSdItems (b : String) : Nat :=
  ((pySplitOn b ',').filter itemMatches).length

/-- One iteration of the `for item in baggage_value.split(",")` loop of
`_upsert_baggage`: the accumulator is the `parts` list and the `found`
flag. -/
def upsertStep (key value : String) (acc : List String × Bool) (item : String) :
    List String × Bool :=
  let s := pyStrip item
  if s = "" then acc
  else if containsChar s.data '=' then
    if pyStrip ⟨(splitFirst '=' s.data).1⟩ = key then
      (acc.1 ++ [key ++ "=" ++ value], true)
    else (acc.1 ++ [s], acc.2)
  else (acc.1 ++ [s], acc.2)

/-- `_upsert_baggage(baggage_value, key, value)` from publisher/app.py. -/
def upsertBaggage (baggageValue key value : String) : String :=
  if baggageValue = "" then
    key ++ "=" ++ value
  else
    let r := (pySplitOn baggageValue ',').foldl (upsertStep key value) ([], false)
    let parts := if r.2 then r.1 else r.1 ++ [key ++ "=" ++ value]
    pyJoin ',' parts

/-- Proof-support invariant for the `_upsert_baggage` fold with key
`sd-routing-key` and value `v`: every accumulated part is comma-free, every
accumulated part that the consumer's scan recognises as an `sd-routing-key`
item carries the value `v`, and the `found` flag certifies a recognised
item. -/
def UpsertInv (v : String) (acc : List String × Bool) : Prop :=
  (∀ q ∈ acc.1, ',' ∉ q.data) ∧
  (∀ q ∈ acc.1, itemMatches q = true → itemValue q = v) ∧
  (acc.2 = true → ∃ q ∈ acc.1, itemMatches q = true)

/-- The AMQP headers `publish_message` attaches for effective routing key
`rk` and incoming request `baggage` header `b`: for non-baseline traffic,
`signadot-routing-key` set to `rk` and `baggage` set to the upserted
baggage; for baseline traffic, no headers. -/
def publishHeaders (rk : String) (incomingBaggage : String) : List (String × String) :=
  if rk != "" && rk != "baseline" then
    [("signadot-routing-key", rk),
     ("baggage", upsertBaggage incomingBaggage "sd-routing-key" rk)]
  else []

/-! ## Helper lemmas -/

theorem runTable_obs_mem (ops : List TableOp) : ∀ (init : Finset String),
    ∀ o ∈ (runTable init ops).2, o = init ∨ TableOp.replace o ∈ ops := by
  induction ops with
  | nil => intro init o ho; simp [runTable] at ho
  | cons op ops ih =>
    intro init o ho
    cases op with
    | replace t =>
      simp only [runTable] at ho
      rcases ih t o ho with h | h
      · right; rw [h]; exact List.mem_cons_self _ _
      · right; exact List.mem_cons_of_mem _ h
    | snapshot =>
      simp only [runTable] at ho
      rcases List.mem_cons.mp ho with h | h
      · left; exact h
      · rcases ih init o h with h' | h'
        · left; exact h'
        · right; exact List.mem_cons_of_mem _ h'

theorem itemMatches_strip_empty (item : String) (h : pyStrip item = "") :
    itemMatches item = false := by
  simp only [itemMatches, h]
  rfl

theorem findBaggageKey_none (l : List String)
    (h : ∀ p ∈ l, itemMatches p = false) : findBaggageKey l = none := by
  induction l with
  | nil => rfl
  | cons a t ih =>
    simp only [findBaggageKey, h a (List.mem_cons_self a t), Bool.false_eq_true,
      if_false]
    exact ih fun p hp => h p (List.mem_cons_of_mem a hp)

theorem findBaggageKey_first_match (pre post : List String) (item : String)
    (hpre : ∀ p ∈ pre, itemMatches p = false) (hitem : itemMatches item = true) :
    findBaggageKey (pre ++ item :: post) = some (itemValue item) := by
  induction pre with
  | nil => simp [findBaggageKey, hitem]
  | cons a l ih =>
    simp only [List.cons_append, findBaggageKey, hpre a (List.mem_cons_self a l),
      Bool.false_eq_true, if_false]
    exact ih fun p hp => hpre p (List.mem_cons_of_mem a hp)

theorem string_data_eq_nil_iff (s : String) : s.data = [] ↔ s = "" := by
  constructor
  · intro h
    cases s with
    | mk d =>
      have hd : d = [] := h
      rw [hd]
  · intro h
    rw [h]

theorem dropWhile_head_not (p : Char → Bool) (l : List Char) :
    ∀ a ∈ (l.dropWhile p).head?, p a = false := by
  induction l with
  | nil => simp
  | cons x t ih =>
    rw [List.dropWhile_cons]
    cases hx : p x with
    | true => simpa using ih
    | false =>
      simp only [Bool.false_eq_true, if_false]
      intro a ha
      simp only [List.head?_cons, Option.mem_def, Option.some.injEq] at ha
      rw [← ha]
      exact hx

theorem dropWhile_eq_self_of_head (p : Char → Bool) (l : List Char)
    (h : ∀ a ∈ l.head?, p a = false) : l.dropWhile p = l := by
  cases l with
  | nil => rfl
  | cons x t => simp [List.dropWhile_cons, h x rfl]

theorem suffix_getLast?_eq {s t : List Char} (hsuf : s <:+ t) (hne : s ≠ []) :
    s.getLast? = t.getLast? := by
  obtain ⟨u, rfl⟩ := hsuf
  rw [List.getLast?_append]
  cases hs : s.getLast? with
  | none => exact absurd (List.getLast?_eq_none_iff.mp hs) hne
  | some a => rfl

theorem stripChars_getLast_not (l : List Char) :
    ∀ a ∈ (stripChars l).getLast?, pyIsSpace a = false := by
  intro a ha
  unfold stripChars at ha
  rw [List.getLast?_reverse] at ha
  exact dropWhile_head_not _ _ a ha

theorem stripChars_head_not (l : List Char) :
    ∀ a ∈ (stripChars l).head?, pyIsSpace a = false := by
  intro a ha
  unfold stripChars at ha
  rw [List.head?_reverse] at ha
  by_cases h0 : (l.dropWhile pyIsSpace).reverse.dropWhile pyIsSpace = []
  · rw [h0] at ha; simp at ha
  · rw [suffix_getLast?_eq (List.dropWhile_suffix pyIsSpace) h0,
      List.getLast?_reverse] at ha
    exact dropWhile_head_not _ _ a ha

theorem stripChars_eq_self (l : List Char)
    (h1 : ∀ a ∈ l.head?, pyIsSpace a = false)
    (h2 : ∀ a ∈ l.getLast?, pyIsSpace a = false) :
    stripChars l = l := by
  have hl1 : l.dropWhile pyIsSpace = l := dropWhile_eq_self_of_head _ _ h1
  have hl2 : l.reverse.dropWhile pyIsSpace = l.reverse := by
    apply dropWhile_eq_self_of_head
    intro a ha
    rw [List.head?_reverse] at ha
    exact h2 a ha
  unfold stripChars
  rw [hl1, hl2, List.reverse_reverse]

theorem stripChars_idem (l : List Char) : stripChars (stripChars l) = stripChars l :=
  stripChars_eq_self _ (stripChars_head_not l) (stripChars_getLast_not l)

theorem pyStrip_idem (s : String) : pyStrip (pyStrip s) = pyStrip s :=
  congrArg String.mk (stripChars_idem s.data)

theorem mem_of_mem_stripChars {a : Char} {l : List Char} (h : a ∈ stripChars l) :
    a ∈ l := by
  unfold stripChars at h
  rw [List.mem_reverse] at h
  have h2 := (List.dropWhile_suffix pyIsSpace).subset h
  rw [List.mem_reverse] at h2
  exact (List.dropWhile_suffix pyIsSpace).subset h2

theorem head_not_space_of_stripChars_eq_self (l : List Char) (h : stripChars l = l) :
    ∀ a ∈ l.head?, pyIsSpace a = false := by
  intro a ha
  cases l with
  | nil => simp at ha
  | cons x t =>
    simp only [List.head?_cons, Option.mem_def, Option.some.injEq] at ha
    rw [← ha]
    by_contra hx
    rw [Bool.not_eq_false] at hx
    have hlen : (stripChars (x :: t)).length ≤ t.length := by
      have h1 : ((x :: t).dropWhile pyIsSpace).length ≤ t.length := by
        rw [List.dropWhile_cons, if_pos hx]
        exact ((List.dropWhile_suffix _).sublist).length_le
      calc (stripChars (x :: t)).length
          = (((x :: t).dropWhile pyIsSpace).reverse.dropWhile pyIsSpace).length := by
            simp [stripChars]
        _ ≤ ((x :: t).dropWhile pyIsSpace).reverse.length :=
            ((List.dropWhile_suffix _).sublist).length_le
        _ = ((x :: t).dropWhile pyIsSpace).length := by simp
        _ ≤ t.length := h1
    rw [h] at hlen
    simp at hlen

theorem getLast_not_space_of_stripChars_eq_self (l : List Char)
    (h : stripChars l = l) : ∀ a ∈ l.getLast?, pyIsSpace a = false := by
  intro a ha
  by_contra hx
  rw [Bool.not_eq_false] at hx
  have hne : l ≠ [] := by
    intro h0; subst h0; simp at ha
  by_cases hu0 : l.dropWhile pyIsSpace = []
  · have h0 : stripChars l = [] := by simp [stripChars, hu0]
    rw [h] at h0
    exact hne h0
  · have hsuf : l.dropWhile pyIsSpace <:+ l := List.dropWhile_suffix _
    have hgl : (l.dropWhile pyIsSpace).getLast? = l.getLast? :=
      suffix_getLast?_eq hsuf hu0
    have hrev : (l.dropWhile pyIsSpace).reverse.head? = some a := by
      rw [List.head?_reverse, hgl]; exact ha
    obtain ⟨rest, hrest⟩ :
        ∃ rest, (l.dropWhile pyIsSpace).reverse = a :: rest := by
      cases hur : (l.dropWhile pyIsSpace).reverse with
      | nil => rw [hur] at hrev; simp at hrev
      | cons y r =>
        rw [hur] at hrev
        simp only [List.head?_cons, Option.some.injEq] at hrev
        exact ⟨r, by rw [hrev]⟩
    have h2 : ((l.dropWhile pyIsSpace).reverse.dropWhile pyIsSpace).length ≤
        rest.length := by
      rw [hrest, List.dropWhile_cons, if_pos hx]
      exact ((List.dropWhile_suffix _).sublist).length_le
    have h3 : (stripChars l).length =
        ((l.dropWhile pyIsSpace).reverse.dropWhile pyIsSpace).length := by
      simp [stripChars]
    have h4 : (l.dropWhile pyIsSpace).length = rest.length + 1 := by
      have h4a : (l.dropWhile pyIsSpace).reverse.length = rest.length + 1 := by
        rw [hrest]; rfl
      simpa using h4a
    have h5 : (l.dropWhile pyIsSpace).length ≤ l.length := hsuf.sublist.length_le
    have h6 : (stripChars l).length = l.length := by rw [h]
    omega

theorem splitFirst_append (c : Char) (xs ys : List Char) (h : c ∉ xs) :
    splitFirst c (xs ++ c :: ys) = (xs, ys) := by
  induction xs with
  | nil => simp [splitFirst]
  | cons a t ih =>
    have hac : ¬a = c := fun he => h (he ▸ List.mem_cons_self a t)
    have ht : c ∉ t := fun hm => h (List.mem_cons_of_mem a hm)
    simp [splitFirst, hac, ih ht]

theorem splitOnP_pieces (p : Char → Bool) :
    ∀ (xs : List Char), ∀ l ∈ xs.splitOnP p, ∀ y ∈ l, p y = false := by
  intro xs
  induction xs with
  | nil =>
    intro l hl y hy
    simp only [List.splitOnP_nil, List.mem_singleton] at hl
    subst hl
    simp at hy
  | cons a t ih =>
    intro l hl y hy
    rw [List.splitOnP_cons] at hl
    by_cases ha : p a = true
    · rw [if_pos ha] at hl
      rcases List.mem_cons.mp hl with rfl | h
      · simp at hy
      · exact ih l h y hy
    · rw [if_neg ha] at hl
      cases hsp : t.splitOnP p with
      | nil => exact absurd hsp (List.splitOnP_ne_nil p t)
      | cons hd tl =>
        rw [hsp, List.modifyHead_cons] at hl
        rcases List.mem_cons.mp hl with rfl | h
        · rcases List.mem_cons.mp hy with rfl | h2
          · simpa using ha
          · exact ih hd (by rw [hsp]; exact List.mem_cons_self hd tl) y h2
        · exact ih l (by rw [hsp]; exact List.mem_cons_of_mem hd h) y hy

theorem splitOn_pieces (c : Char) (xs : List Char) :
    ∀ l ∈ xs.splitOn c, c ∉ l := by
  intro l hl hc
  simp only [List.splitOn] at hl
  have := splitOnP_pieces (· == c) xs l hl c hc
  simp at this

theorem pySplitOn_pieces (b : String) (c : Char) :
    ∀ s ∈ pySplitOn b c, c ∉ s.data := by
  intro s hs
  unfold pySplitOn at hs
  rw [List.mem_map] at hs
  obtain ⟨l, hl, rfl⟩ := hs
  exact splitOn_pieces c b.data l hl

theorem pySplitOn_eq_single (s : String) (h : ',' ∉ s.data) :
    pySplitOn s ',' = [s] := by
  unfold pySplitOn
  rw [show s.data.splitOn ',' = [s.data] from ?_]
  · rfl
  · simp only [List.splitOn]
    apply List.splitOnP_eq_single
    intro x hx hbeq
    rw [beq_iff_eq] at hbeq
    subst hbeq
    exact h hx

theorem pySplitOn_pyJoin (parts : List String) (hne : parts ≠ [])
    (hnc : ∀ s ∈ parts, ',' ∉ s.data) :
    pySplitOn (pyJoin ',' parts) ',' = parts := by
  unfold pySplitOn pyJoin
  rw [show (String.mk ([','].intercalate (parts.map String.data))).data
      = [','].intercalate (parts.map String.data) from rfl]
  rw [List.splitOn_intercalate]
  · rw [List.map_map]
    have hid : (String.mk ∘ String.data) = id := by
      funext s; rfl
    rw [hid, List.map_id]
  · intro l hl
    rw [List.mem_map] at hl
    obtain ⟨s, hs, rfl⟩ := hl
    exact hnc s hs
  · simpa using hne

theorem keyval_data (v : String) :
    ("sd-routing-key" ++ "=" ++ v).data = "sd-routing-key".data ++ '=' :: v.data := rfl

theorem keyval_comma_free (v : String) (hcomma : containsChar v.data ',' = false) :
    ',' ∉ ("sd-routing-key" ++ "=" ++ v).data := by
  rw [keyval_data]
  intro hmem
  rcases List.mem_append.mp hmem with h | h
  · exact absurd h (by decide)
  · rcases List.mem_cons.mp h with h2 | h2
    · exact absurd h2 (by decide)
    · unfold containsChar at hcomma
      rw [decide_eq_false_iff_not] at hcomma
      exact hcomma h2

theorem pyStrip_keyval (v : String) (hv : v ≠ "") (hstrip : pyStrip v = v) :
    pyStrip ("sd-routing-key" ++ "=" ++ v) = "sd-routing-key" ++ "=" ++ v := by
  have hsc : stripChars v.data = v.data := congrArg String.data hstrip
  have hvd : v.data ≠ [] := fun h0 => hv ((string_data_eq_nil_iff v).mp h0)
  have hlast := getLast_not_space_of_stripChars_eq_self v.data hsc
  refine congrArg String.mk ?_
  apply stripChars_eq_self
  · intro a ha
    rw [keyval_data] at ha
    have h1 : ("sd-routing-key".data ++ '=' :: v.data).head? = some 's' := rfl
    rw [h1] at ha
    simp only [Option.mem_def, Option.some.injEq] at ha
    rw [← ha]
    rfl
  · intro a ha
    rw [keyval_data, List.getLast?_append] at ha
    obtain ⟨x, hx⟩ : ∃ x, v.data.getLast? = some x := by
      cases hg : v.data.getLast? with
      | none => exact absurd (List.getLast?_eq_none_iff.mp hg) hvd
      | some x => exact ⟨x, rfl⟩
    have h2 : ('=' :: v.data).getLast? = some x := by
      rw [show ('=' :: v.data) = ['='] ++ v.data from rfl, List.getLast?_append, hx]
      rfl
    rw [h2] at ha
    simp only [Option.or_some, Option.mem_def, Option.some.injEq] at ha
    rw [← ha]
    exact hlast x hx

theorem keyval_contains_eq (v : String) :
    containsChar ("sd-routing-key" ++ "=" ++ v).data '=' = true := by
  unfold containsChar
  apply decide_eq_true
  rw [keyval_data]
  exact List.mem_append_right _ (List.mem_cons_self '=' v.data)

theorem keyval_splitFirst (v : String) :
    splitFirst '=' ("sd-routing-key" ++ "=" ++ v).data =
      ("sd-routing-key".data, v.data) := by
  rw [keyval_data]
  exact splitFirst_append '=' _ _ (by decide)

theorem itemMatches_keyval (v : String) (hv : v ≠ "") (hstrip : pyStrip v = v) :
    itemMatches ("sd-routing-key" ++ "=" ++ v) = true := by
  simp only [itemMatches, pyStrip_keyval v hv hstrip, keyval_contains_eq,
    keyval_splitFirst, if_true]
  rfl

theorem itemValue_keyval (v : String) (hv : v ≠ "") (hstrip : pyStrip v = v) :
    itemValue ("sd-routing-key" ++ "=" ++ v) = v := by
  unfold itemValue
  rw [pyStrip_keyval v hv hstrip, keyval_splitFirst]
  exact hstrip

theorem itemMatches_of_stripped_no_eq (s : String)
    (hse : containsChar (pyStrip s).data '=' = false) :
    itemMatches (pyStrip s) = false := by
  simp only [itemMatches, pyStrip_idem s, hse, Bool.false_eq_true, if_false]

theorem itemMatches_of_stripped_key_ne (s : String)
    (hne : ¬pyStrip ⟨(splitFirst '=' (pyStrip s).data).1⟩ = "sd-routing-key") :
    itemMatches (pyStrip s) = false := by
  simp only [itemMatches, pyStrip_idem s]
  by_cases hc : containsChar (pyStrip s).data '=' = true
  · rw [if_pos hc]
    exact beq_eq_false_iff_ne.mpr hne
  · rw [if_neg hc]

theorem findBaggageKey_eq_some (l : List String) (v : String)
    (h1 : ∃ q ∈ l, itemMatches q = true)
    (h2 : ∀ q ∈ l, itemMatches q = true → itemValue q = v) :
    findBaggageKey l = some v := by
  induction l with
  | nil =>
    obtain ⟨q, hq, _⟩ := h1
    simp at hq
  | cons a t ih =>
    by_cases ha : itemMatches a = true
    · rw [findBaggageKey, if_pos ha, h2 a (List.mem_cons_self a t) ha]
    · rw [findBaggageKey, if_neg ha]
      apply ih
      · obtain ⟨q, hq, hqm⟩ := h1
        rcases List.mem_cons.mp hq with rfl | h
        · exact absurd hqm ha
        · exact ⟨q, h, hqm⟩
      · exact fun q hq hqm => h2 q (List.mem_cons_of_mem a hq) hqm

theorem extract_explicit_lookup (hs : List (String × String)) (v : String)
    (hv : lookupHeader hs "signadot-routing-key" = some v) (hne : v ≠ "") :
    extractRoutingKey (some hs) = some v := by
  have hns : hs ≠ [] := by
    intro h; subst h; simp [lookupHeader] at hv
  simp [extractRoutingKey, hns, hv, truthy, hne]

theorem upsert_fold_invariant (v : String) (hv : v ≠ "") (hstrip : pyStrip v = v)
    (hcomma : containsChar v.data ',' = false) :
    ∀ (pieces : List String), (∀ s ∈ pieces, ',' ∉ s.data) →
      ∀ acc, UpsertInv v acc →
        UpsertInv v (pieces.foldl (upsertStep "sd-routing-key" v) acc) := by
  intro pieces
  induction pieces with
  | nil => exact fun _ acc h => h
  | cons it rest ih =>
    intro hpn acc hacc
    rw [List.foldl_cons]
    apply ih fun q hq => hpn q (List.mem_cons_of_mem it hq)
    have hitc : ',' ∉ it.data := hpn it (List.mem_cons_self it rest)
    have hitc' : ',' ∉ (pyStrip it).data := fun hmem => hitc (mem_of_mem_stripChars hmem)
    obtain ⟨h1, h2, h3⟩ := hacc
    unfold upsertStep
    by_cases hse : pyStrip it = ""
    · rw [if_pos hse]
      exact ⟨h1, h2, h3⟩
    · rw [if_neg hse]
      by_cases hc : containsChar (pyStrip it).data '=' = true
      · rw [if_pos hc]
        by_cases hk : pyStrip ⟨(splitFirst '=' (pyStrip it).data).1⟩ = "sd-routing-key"
        · rw [if_pos hk]
          refine ⟨fun q hq => ?_, fun q hq hm => ?_, fun _ => ?_⟩
          · rcases List.mem_append.mp hq with h | h
            · exact h1 q h
            · rw [List.mem_singleton] at h
              subst h
              exact keyval_comma_free v hcomma
          · rcases List.mem_append.mp hq with h | h
            · exact h2 q h hm
            · rw [List.mem_singleton] at h
              subst h
              exact itemValue_keyval v hv hstrip
          · exact ⟨"sd-routing-key" ++ "=" ++ v,
              List.mem_append_right _ (List.mem_singleton_self _),
              itemMatches_keyval v hv hstrip⟩
        · rw [if_neg hk]
          refine ⟨fun q hq => ?_, fun q hq hm => ?_, fun hf => ?_⟩
          · rcases List.mem_append.mp hq with h | h
            · exact h1 q h
            · rw [List.mem_singleton] at h
              subst h
              exact hitc'
          · rcases List.mem_append.mp hq with h | h
            · exact h2 q h hm
            · rw [List.mem_singleton] at h
              subst h
              rw [itemMatches_of_stripped_key_ne it hk] at hm
              exact absurd hm (by simp)
          · obtain ⟨q, hq, hqm⟩ := h3 hf
            exact ⟨q, List.mem_append_left _ hq, hqm⟩
      · rw [if_neg hc]
        have hcf : containsChar (pyStrip it).data '=' = false := by
          cases hcc : containsChar (pyStrip it).data '=' with
          | true => exact absurd hcc hc
          | false => rfl
        refine ⟨fun q hq => ?_, fun q hq hm => ?_, fun hf => ?_⟩
        · rcases List.mem_append.mp hq with h | h
          · exact h1 q h
          · rw [List.mem_singleton] at h
            subst h
            exact hitc'
        · rcases List.mem_append.mp hq with h | h
          · exact h2 q h hm
          · rw [List.mem_singleton] at h
            subst h
            rw [itemMatches_of_stripped_no_eq it hcf] at hm
            exact absurd hm (by simp)
        · obtain ⟨q, hq, hqm⟩ := h3 hf
          exact ⟨q, List.mem_append_left _ hq, hqm⟩

theorem upsert_parts_spec (v b : String) (hv : v ≠ "") (hstrip : pyStrip v = v)
    (hcomma : containsChar v.data ',' = false) :
    (∀ q ∈ pySplitOn (upsertBaggage b "sd-routing-key" v) ',',
        itemMatches q = true → itemValue q = v) ∧
    (∃ q ∈ pySplitOn (upsertBaggage b "sd-routing-key" v) ',',
        itemMatches q = true) := by
  by_cases hb : b = ""
  · subst hb
    rw [show upsertBaggage "" "sd-routing-key" v = "sd-routing-key" ++ "=" ++ v from rfl,
      pySplitOn_eq_single _ (keyval_comma_free v hcomma)]
    constructor
    · intro q hq _
      rw [List.mem_singleton] at hq
      subst hq
      exact itemValue_keyval v hv hstrip
    · exact ⟨_, List.mem_singleton_self _, itemMatches_keyval v hv hstrip⟩
  · obtain ⟨i1, i2, i3⟩ := upsert_fold_invariant v hv hstrip hcomma (pySplitOn b ',')
      (pySplitOn_pieces b ',') ([], false) ⟨by simp, by simp, by simp⟩
    set r := (pySplitOn b ',').foldl (upsertStep "sd-routing-key" v) ([], false) with hr
    set parts := (if r.2 then r.1 else r.1 ++ ["sd-routing-key" ++ "=" ++ v]) with hparts
    have hub : upsertBaggage b "sd-routing-key" v = pyJoin ',' parts := by
      unfold upsertBaggage
      rw [if_neg hb]
    have hpc : ∀ q ∈ parts, ',' ∉ q.data := by
      intro q hq
      rw [hparts] at hq
      by_cases h2 : r.2 = true
      · rw [if_pos h2] at hq
        exact i1 q hq
      · rw [if_neg h2] at hq
        rcases List.mem_append.mp hq with h | h
        · exact i1 q h
        · rw [List.mem_singleton] at h
          subst h
          exact keyval_comma_free v hcomma
    have hpv : ∀ q ∈ parts, itemMatches q = true → itemValue q = v := by
      intro q hq hm
      rw [hparts] at hq
      by_cases h2 : r.2 = true
      · rw [if_pos h2] at hq
        exact i2 q hq hm
      · rw [if_neg h2] at hq
        rcases List.mem_append.mp hq with h | h
        · exact i2 q h hm
        · rw [List.mem_singleton] at h
          subst h
          exact itemValue_keyval v hv hstrip
    have hex : ∃ q ∈ parts, itemMatches q = true := by
      by_cases h2 : r.2 = true
      · obtain ⟨q, hq, hm⟩ := i3 h2
        exact ⟨q, by rw [hparts, if_pos h2]; exact hq, hm⟩
      · refine ⟨"sd-routing-key" ++ "=" ++ v, ?_, itemMatches_keyval v hv hstrip⟩
        rw [hparts, if_neg h2]
        exact List.mem_append_right _ (List.mem_singleton_self _)
    have hnp : parts ≠ [] := by
      obtain ⟨q, hq, _⟩ := hex
      exact List.ne_nil_of_mem hq
    rw [hub, pySplitOn_pyJoin parts hnp hpc]
    exact ⟨hpv, hex⟩

theorem effect_beq_ack_ack : (Effect.ack == Effect.ack) = true := rfl

theorem effect_beq_handle_ack : (Effect.handle == Effect.ack) = false := rfl

theorem effect_beq_log_ack (e : String) :
    (Effect.logHandlerError e == Effect.ack) = false := rfl

/-! ## Claim theorems -/

/-- C1: for a baseline-mode consumer, `_should_process` returns true when the
extracted routing key is absent (Python-falsy: `None` or `""`, per the spec's
"empty string values are treated as absent"); true when the key is present but
not in the current active route set; false when the key is present and in the
active route set. -/
theorem baseline_admission_cases (c : ConsumerConfig) (hb : isBaseline c = true)
    (active : Finset String) (headers : Option (List (String × String))) :
    (truthy (extractRoutingKey headers) = false → shouldProcess c active headers = true) ∧
    (∀ k, extractRoutingKey headers = some k → k ≠ "" → k ∉ active →
      shouldProcess c active headers = true) ∧
    (∀ k, extractRoutingKey headers = some k → k ≠ "" → k ∈ active →
      shouldProcess c active headers = false) := by
  refine ⟨fun h => ?_, fun k hk hk0 hmem => ?_, fun k hk hk0 hmem => ?_⟩
  · simp [shouldProcess, hb, h]
  · simp [shouldProcess, hb, hk, truthy, hk0, hmem]
  · simp [shouldProcess, hb, hk, truthy, hk0, hmem]

theorem baseline_admission_cases_witness :
    shouldProcess ⟨none⟩ ({"sbx-42"} : Finset String)
      (some [("signadot-routing-key", "sbx-42")]) = false :=
  (baseline_admission_cases ⟨none⟩ (by decide) {"sbx-42"}
    (some [("signadot-routing-key", "sbx-42")])).2.2 "sbx-42" (by decide) (by decide)
    (by decide)

/-- C2: for a sandbox-mode consumer configured with non-empty routing key `K`,
`_should_process` returns true iff the routing key extracted from the message
headers is exactly `K`; any other extracted value, including an absent key,
yields false. -/
theorem sandbox_admission_iff (c : ConsumerConfig) (K : String)
    (hc : c.sandboxRoutingKey = some K) (hK : K ≠ "")
    (active : Finset String) (headers : Option (List (String × String))) :
    shouldProcess c active headers = true ↔ extractRoutingKey headers = some K := by
  have hbase : isBaseline c = false := by simp [isBaseline, truthy, hc, hK]
  simp [shouldProcess, hbase, hc]

theorem sandbox_admission_iff_witness :
    shouldProcess ⟨some "sbx-42"⟩ ∅
      (some [("baggage", "foo=bar, sd-routing-key=sbx-42")]) = true :=
  (sandbox_admission_iff ⟨some "sbx-42"⟩ "sbx-42" rfl (by decide) ∅
    (some [("baggage", "foo=bar, sd-routing-key=sbx-42")])).mpr (by decide)

/-- C6: every received message is acknowledged exactly once, after the
admission decision and any handling complete (the `ack` effect is the last in
each trace), in all three cases — accepted and handled successfully, rejected,
accepted with a raised handler error; a handler error is caught and logged, so
every delivery of the loop still yields a trace (the loop is not stopped). -/
theorem on_message_acks_exactly_once (msgs : List (Bool × Except String Unit)) :
    (consumeLoop msgs).length = msgs.length ∧
    ∀ t ∈ consumeLoop msgs,
      t.count Effect.ack = 1 ∧ t.getLast? = some Effect.ack := by
  refine ⟨by simp [consumeLoop], fun t ht => ?_⟩
  simp only [consumeLoop, List.mem_map] at ht
  obtain ⟨⟨accepted, handler⟩, _, rfl⟩ := ht
  cases accepted <;> cases handler <;>
    simp [onMessageEffects, List.count_cons, List.count_singleton,
      effect_beq_ack_ack, effect_beq_handle_ack, effect_beq_log_ack]

theorem on_message_acks_exactly_once_witness :
    ([Effect.handle, Effect.logHandlerError "boom", Effect.ack].count Effect.ack = 1 ∧
      [Effect.handle, Effect.logHandlerError "boom", Effect.ack].getLast? =
        some Effect.ack) :=
  (on_message_acks_exactly_once
      [(true, Except.ok ()), (false, Except.ok ()), (true, Except.error "boom")]).2
    (onMessageEffects true (Except.error "boom")) (by simp [consumeLoop])

/-- C7: a failed poll cycle of `update_routes` (timeout, non-success HTTP
status, malformed response body, or any other error) leaves the active route
set exactly as it was; only a successful cycle changes it, replacing it by the
set of non-empty `routingKey` fields of the returned rules. -/
theorem failed_poll_preserves_routes (prev : Finset String) :
    (∀ e, updateRoutesCycle prev (PollResult.failure e) = prev) ∧
    (∀ rules k, k ∈ updateRoutesCycle prev (PollResult.success rules) ↔
      some k ∈ rules ∧ k ≠ "") := by
  refine ⟨fun e => rfl, fun rules k => ?_⟩
  simp only [updateRoutesCycle, activeFromRules, List.mem_toFinset, List.mem_filterMap]
  constructor
  · rintro ⟨rk, hmem, hk⟩
    cases rk with
    | none => simp at hk
    | some s =>
      by_cases hs : s = ""
      · simp [hs] at hk
      · simp only [hs, if_false, Option.some.injEq] at hk
        exact hk ▸ ⟨hmem, hs⟩
  · rintro ⟨hmem, hk⟩
    exact ⟨some k, hmem, by simp [hk]⟩

/-- C8: a `replace` of the active route set followed by a `snapshot` returns
exactly the replaced set; since each refresh installs a complete new set in a
single assignment under the lock (one atomic step of the trace semantics, the
stored set never being mutated in place), every set a reader ever observes is
either the initial set or exactly one of the replaced sets — never a mixture
of old and new members. -/
theorem replace_snapshot_atomic (init : Finset String) (ops : List TableOp) :
    (∀ s t : Finset String, runTable s [TableOp.replace t, TableOp.snapshot] = (t, [t])) ∧
    (∀ o ∈ (runTable init ops).2, o = init ∨ TableOp.replace o ∈ ops) :=
  ⟨fun _ _ => rfl, runTable_obs_mem ops init⟩

theorem replace_snapshot_atomic_witness :
    ({"b"} : Finset String) = ({"a"} : Finset String) ∨
      TableOp.replace ({"b"} : Finset String) ∈
        [TableOp.replace {"b"}, TableOp.snapshot] :=
  (replace_snapshot_atomic {"a"} [TableOp.replace {"b"}, TableOp.snapshot]).2
    {"b"} (by simp [runTable])

/-- C9: for a baseline-mode consumer and a fixed message whose extracted
routing key is present, the admission decision is antitone in the active route
set: for `S ⊆ T`, a rejection under `S` is a rejection under `T` and an
acceptance under `T` is an acceptance under `S` (growing the set can only turn
acceptance into rejection); and under the initial empty set every message is
accepted. -/
theorem baseline_admission_antitone (c : ConsumerConfig) (hb : isBaseline c = true)
    (headers : Option (List (String × String))) (k : String)
    (hk : extractRoutingKey headers = some k) (hk0 : k ≠ "")
    (S T : Finset String) (hST : S ⊆ T) :
    (shouldProcess c S headers = false → shouldProcess c T headers = false) ∧
    (shouldProcess c T headers = true → shouldProcess c S headers = true) ∧
    (∀ headers2, shouldProcess c initialActiveRoutes headers2 = true) := by
  have hred : ∀ A : Finset String, shouldProcess c A headers = !(decide (k ∈ A)) := by
    intro A
    simp [shouldProcess, hb, hk, truthy, hk0]
  refine ⟨fun h => ?_, fun h => ?_, fun headers2 => ?_⟩
  · rw [hred] at h ⊢
    simp only [Bool.not_eq_false', decide_eq_true_eq] at h ⊢
    exact hST h
  · rw [hred] at h ⊢
    simp only [Bool.not_eq_true', decide_eq_false_iff_not] at h ⊢
    exact fun hc' => h (hST hc')
  · simp only [shouldProcess, hb, Bool.not_true, Bool.false_eq_true, if_false]
    cases htr : truthy (extractRoutingKey headers2) <;>
      simp [initialActiveRoutes]

theorem failed_poll_preserves_routes_witness :
    updateRoutesCycle ({"sbx-42"} : Finset String)
      (PollResult.failure PollFailure.timeout) = {"sbx-42"} :=
  (failed_poll_preserves_routes {"sbx-42"}).1 PollFailure.timeout

/-- C3 counterexample: a `signadot-routing-key` value with surrounding
whitespace is returned verbatim by `_extract_routing_key`, not trimmed: on
metadata `{signadot-routing-key: " abc "}` the function returns `" abc "`,
which differs from the trimmed value `"abc"` the claim requires. -/
theorem extract_explicit_header_not_trimmed :
    extractRoutingKey (some [("signadot-routing-key", " abc ")]) = some " abc " ∧
    pyStrip " abc " = "abc" ∧ (" abc " : String) ≠ "abc" :=
  ⟨rfl, rfl, by decide⟩

/-- C3 (amended): for every metadata map containing a non-empty value under
`signadot-routing-key` (bytes values being decoded as UTF-8 first), the
function returns that value verbatim — not trimmed — regardless of what the
`baggage` field contains. -/
theorem extract_explicit_header_verbatim (hs : List (String × String)) (v : String)
    (hv : lookupHeader hs "signadot-routing-key" = some v) (hne : v ≠ "") :
    extractRoutingKey (some hs) = some v := by
  have hns : hs ≠ [] := by
    intro h; subst h; simp [lookupHeader] at hv
  simp [extractRoutingKey, hns, hv, truthy, hne]

theorem extract_explicit_header_verbatim_witness :
    extractRoutingKey
      (some [("signadot-routing-key", "sbx-42"), ("baggage", "sd-routing-key=other")]) =
      some "sbx-42" :=
  extract_explicit_header_verbatim _ "sbx-42" rfl (by decide)

/-- C4: for every metadata map whose `signadot-routing-key` is absent or empty
but whose `baggage` value, split on commas, has a first item recognised as an
`sd-routing-key` item (it contains `=` and its key part, trimmed, equals
`sd-routing-key`), `_extract_routing_key` returns the trimmed value part of
that first matching item. -/
theorem extract_baggage_first_match (hs : List (String × String)) (b : String)
    (h1 : truthy (lookupHeader hs "signadot-routing-key") = false)
    (h2 : lookupHeader hs "baggage" = some b) (h3 : b ≠ "")
    (pre post : List String) (item : String)
    (hsplit : pySplitOn b ',' = pre ++ item :: post)
    (hpre : ∀ p ∈ pre, itemMatches p = false)
    (hitem : itemMatches item = true) :
    extractRoutingKey (some hs) = some (itemValue item) := by
  have hns : hs ≠ [] := by
    intro h; subst h; simp [lookupHeader] at h2
  simp only [extractRoutingKey, if_neg hns, h1, Bool.false_eq_true, if_false, h2,
    Option.getD_some, if_neg h3, hsplit]
  exact findBaggageKey_first_match pre post item hpre hitem

theorem extract_baggage_first_match_witness :
    extractRoutingKey (some [("baggage", "foo=bar, sd-routing-key=sbx-42")]) =
      some "sbx-42" :=
  extract_baggage_first_match [("baggage", "foo=bar, sd-routing-key=sbx-42")]
    "foo=bar, sd-routing-key=sbx-42" (by decide) rfl (by decide)
    ["foo=bar"] [] " sd-routing-key=sbx-42" (by decide) (by decide) (by decide)

/-- C5 counterexample: a whitespace-only (hence non-empty) value under
`signadot-routing-key` is Python-truthy, so `_extract_routing_key` returns it
as a present key instead of treating it as absent, refuting the claim for
fields that are "empty after trimming". -/
theorem extract_whitespace_key_is_present :
    extractRoutingKey (some [("signadot-routing-key", " ")]) = some " " ∧
    (" " : String) ≠ "" ∧ pyStrip " " = "" :=
  ⟨rfl, by decide, rfl⟩

/-- C5 (amended): `_extract_routing_key` returns absent for `None` metadata,
for empty metadata, for maps whose routing fields are absent or empty strings,
and for maps whose `baggage` splits into whitespace-only items; the function
is total (modelled as a Lean function, it raises nothing on any metadata map).
A whitespace-only `signadot-routing-key` value, however, is returned verbatim
as a present key (see the counterexample). -/
theorem extract_absent_cases :
    extractRoutingKey none = none ∧
    extractRoutingKey (some []) = none ∧
    (∀ hs : List (String × String),
      (lookupHeader hs "signadot-routing-key" = none ∨
        lookupHeader hs "signadot-routing-key" = some "") →
      (lookupHeader hs "baggage" = none ∨ lookupHeader hs "baggage" = some "") →
      extractRoutingKey (some hs) = none) ∧
    (∀ (hs : List (String × String)) (b : String),
      (lookupHeader hs "signadot-routing-key" = none ∨
        lookupHeader hs "signadot-routing-key" = some "") →
      lookupHeader hs "baggage" = some b →
      (∀ p ∈ pySplitOn b ',', pyStrip p = "") →
      extractRoutingKey (some hs) = none) := by
  have htr : ∀ rk : Option String,
      (rk = none ∨ rk = some "") → truthy rk = false := by
    rintro rk (rfl | rfl) <;> rfl
  refine ⟨rfl, rfl, fun hs hrk hbag => ?_, fun hs b hrk hbag hws => ?_⟩
  · by_cases hns : hs = []
    · subst hns; rfl
    · rcases hbag with hbag | hbag <;>
        simp [extractRoutingKey, hns, htr _ hrk, hbag]
  · have hns : hs ≠ [] := by
      intro h; subst h; simp [lookupHeader] at hbag
    by_cases hb : b = ""
    · subst hb; simp [extractRoutingKey, hns, htr _ hrk, hbag]
    · simp only [extractRoutingKey, if_neg hns, htr _ hrk, Bool.false_eq_true,
        if_false, hbag, Option.getD_some, if_neg hb]
      exact findBaggageKey_none _ fun p hp => itemMatches_strip_empty p (hws p hp)

theorem extract_absent_cases_witness :
    extractRoutingKey (some [("signadot-routing-key", ""), ("baggage", " , ")]) =
      none :=
  extract_absent_cases.2.2.2 [("signadot-routing-key", ""), ("baggage", " , ")]
    " , " (Or.inr rfl) rfl (by decide)

theorem baseline_admission_antitone_witness :
    shouldProcess ⟨none⟩ initialActiveRoutes
      (some [("signadot-routing-key", "sbx-42")]) = true :=
  (baseline_admission_antitone ⟨none⟩ (by decide)
      (some [("signadot-routing-key", "sbx-42")]) "sbx-42" (by decide) (by decide)
      ∅ {"sbx-42"} (Finset.empty_subset _)).2.2
    (some [("signadot-routing-key", "sbx-42")])

/-- C10 counterexample: `_upsert_baggage` does not guarantee exactly one
`sd-routing-key` item — an incoming baggage with duplicate `sd-routing-key`
items has each occurrence replaced, yielding two items (both set to the new
value). -/
theorem upsert_duplicate_items :
    upsertBaggage "sd-routing-key=a,sd-routing-key=c" "sd-routing-key" "v" =
      "sd-routing-key=v,sd-routing-key=v" ∧
    countSdItems "sd-routing-key=v,sd-routing-key=v" = 2 :=
  ⟨rfl, rfl⟩

/-- C10 (amended): for every non-empty routing key `v` with no comma, no `=`
and no surrounding whitespace, and `v ≠ "baseline"`, and every incoming
baggage string `b`: the consumer's `_extract_routing_key` applied to the AMQP
headers the publisher builds returns `v`; this still holds on the baggage
field alone, since `_upsert_baggage` guarantees at least one `sd-routing-key`
item — every `sd-routing-key` item of the result carries the value `v` (an
incoming baggage with duplicate `sd-routing-key` items yields several such
items, all set to `v`, so "exactly one" does not hold in general). -/
theorem publish_roundtrip (v b : String) (hv : v ≠ "") (hvb : v ≠ "baseline")
    (hcomma : containsChar v.data ',' = false)
    (_heq : containsChar v.data '=' = false)
    (hstrip : pyStrip v = v) :
    extractRoutingKey (some (publishHeaders v b)) = some v ∧
    findBaggageKey (pySplitOn (upsertBaggage b "sd-routing-key" v) ',') = some v ∧
    (∀ q ∈ pySplitOn (upsertBaggage b "sd-routing-key" v) ',',
        itemMatches q = true → itemValue q = v) ∧
    1 ≤ countSdItems (upsertBaggage b "sd-routing-key" v) := by
  obtain ⟨hall, hex⟩ := upsert_parts_spec v b hv hstrip hcomma
  refine ⟨?_, findBaggageKey_eq_some _ v hex hall, hall, ?_⟩
  · have hcond : (v != "" && v != "baseline") = true := by
      rw [Bool.and_eq_true, bne_iff_ne, bne_iff_ne]
      exact ⟨hv, hvb⟩
    have hph : publishHeaders v b =
        [("signadot-routing-key", v),
         ("baggage", upsertBaggage b "sd-routing-key" v)] := by
      unfold publishHeaders
      rw [if_pos hcond]
    rw [hph]
    exact extract_explicit_lookup _ v rfl hv
  · obtain ⟨q, hq, hm⟩ := hex
    have hmem : q ∈ (pySplitOn (upsertBaggage b "sd-routing-key" v) ',').filter
        itemMatches := List.mem_filter.mpr ⟨hq, hm⟩
    unfold countSdItems
    exact List.length_pos.mpr (List.ne_nil_of_mem hmem)

theorem publish_roundtrip_witness :
    extractRoutingKey (some (publishHeaders "sbx-42" "foo=bar")) = some "sbx-42" :=
  (publish_roundtrip "sbx-42" "foo=bar" (by decide) (by decide) (by decide)
    (by decide) rfl).1

end SignadotDemo
